import Mathlib

/-!
Verification of the reconciliation engine of
`src/plugins/modules/identity/keycloak/keycloak_user.py` (the `main`
function).  The module reconciles a single Keycloak user against the
desired state supplied by the caller: it fetches the current remote
representation, builds a changeset from the supplied parameters, and
creates / updates / deletes the user through the Keycloak API gateway.

The embedding below models:
  * JSON-like parameter and resource values (`Value`) with Python's
    structural equality (`Value.eqv`): scalars by value, lists by ordered
    element-wise equality, mappings by key/value equality irrespective of
    key order;
  * Python `dict` objects as insertion-ordered association lists with the
    semantics of `d[k]`, `d[k] = v`, `d.copy()`/`d.update(...)` and `==`;
  * the module's parameter table (`Params`), the attribute normalization
    (lines 390-394), the changeset construction (lines 413-424), and the
    full control flow of `main` (lines 404-520) as the function
    `runModule`, parametrized by an abstract gateway (the KeycloakAPI
    collaborator) whose calls are recorded in a trace.
-/

namespace KeycloakUser

/-- JSON-like values as handled by the module: the payload of module
parameters and of the user representations returned by the Keycloak API. -/
inductive Value : Type where
  | null : Value
  | str (s : String) : Value
  | bool (b : Bool) : Value
  | num (n : Int) : Value
  | list (vs : List Value) : Value
  | dict (entries : List (String × Value)) : Value

mutual
/-- Syntactic equality test on values (used on key-order-normalized values
to implement Python structural equality). -/
def Value.beq : Value → Value → Bool
  | .null, .null => true
  | .str a, .str b => a == b
  | .bool a, .bool b => a == b
  | .num a, .num b => a == b
  | .list as, .list bs => Value.beqList as bs
  | .dict as, .dict bs => Value.beqEntries as bs
  | _, _ => false

/-- Element-wise equality of value lists (Python list equality is
order-sensitive). -/
def Value.beqList : List Value → List Value → Bool
  | [], [] => true
  | a :: as, b :: bs => a.beq b && Value.beqList as bs
  | _, _ => false

/-- Pointwise equality of dict entry lists. -/
def Value.beqEntries : List (String × Value) → List (String × Value) → Bool
  | [], [] => true
  | (k, a) :: as, (l, b) :: bs => k == l && a.beq b && Value.beqEntries as bs
  | _, _ => false
end

/-- Byte-wise comparison of character lists, giving a total order on keys
used only to put dict entries into a canonical order. -/
def strLeChars : List Char → List Char → Bool
  | [], _ => true
  | _ :: _, [] => false
  | a :: as, b :: bs =>
    if a.val.toNat < b.val.toNat then true
    else if b.val.toNat < a.val.toNat then false
    else strLeChars as bs

/-- Total order on strings (lexicographic on code points). -/
def strLe (a b : String) : Bool := strLeChars a.data b.data

/-- Insert an entry into a key-sorted entry list (insertion sort step). -/
def insertEntry (e : String × Value) : List (String × Value) → List (String × Value)
  | [] => [e]
  | f :: fs => if strLe e.1 f.1 then e :: f :: fs else f :: insertEntry e fs

/-- Sort dict entries by key, to make Python's key-order-insensitive dict
equality a syntactic comparison. -/
def sortEntries : List (String × Value) → List (String × Value)
  | [] => []
  | e :: es => insertEntry e (sortEntries es)

mutual
/-- Key-order normal form of a value: dict entries are recursively
normalized and sorted by key.  Two values with duplicate-free dict keys are
equal under Python `==` iff their normal forms coincide. -/
def Value.norm : Value → Value
  | .null => .null
  | .str s => .str s
  | .bool b => .bool b
  | .num n => .num n
  | .list vs => .list (Value.normList vs)
  | .dict es => .dict (sortEntries (Value.normEntries es))

/-- Normalize every element of a value list. -/
def Value.normList : List Value → List Value
  | [] => []
  | v :: vs => v.norm :: Value.normList vs

/-- Normalize the value of every dict entry. -/
def Value.normEntries : List (String × Value) → List (String × Value)
  | [] => []
  | (k, v) :: es => (k, v.norm) :: Value.normEntries es
end

/-- Python structural equality (`==`) on module values. -/
def Value.eqv (a b : Value) : Bool := a.norm.beq b.norm


/-- A Python dict with string keys: an insertion-ordered association list.
Reachable dicts have duplicate-free keys. -/
abbrev Dict := List (String × Value)

/-- Python `d[k] if k in d else None`, as an `Option`: the value of the
first entry with key `k`. -/
def dictGet : Dict → String → Option Value
  | [], _ => none
  | e :: es, k => if e.1 = k then some e.2 else dictGet es k

/-- Python `k in d`. -/
def dictContains (d : Dict) (k : String) : Bool := (dictGet d k).isSome

/-- Python `d[k] = v`: replace the value in place if the key exists
(preserving entry order), otherwise append the new entry. -/
def dictSet (d : Dict) (k : String) (v : Value) : Dict :=
  if dictContains d k then d.map (fun e => if e.1 = k then (k, v) else e)
  else d ++ [(k, v)]

/-- Python `d.copy()` followed by `d.update(cs)`: set every entry of `cs`
in order (line 427-428 of the module). -/
def dictUpdate (d : Dict) (cs : Dict) : Dict :=
  cs.foldl (fun acc e => dictSet acc e.1 e.2) d

/-- The keys of a dict, in order. -/
def keysOf (d : Dict) : List String := d.map Prod.fst

/-- One half of Python dict equality: every entry of `a` has an
`eqv`-equal value in `b` under the same key. -/
def dictLe (a b : Dict) : Bool :=
  a.all (fun e =>
    match dictGet b e.1 with
    | some w => Value.eqv e.2 w
    | none => false)

/-- Python `==` on dicts (for duplicate-free keys): the same key set with
structurally equal values, irrespective of entry order. -/
def dictEqv (a b : Dict) : Bool := dictLe a b && dictLe b a

/-- Python `new != old` of line 423, where `old` is `None` when the key
was absent from the current resource (line 418). -/
def pyNe (new : Value) (old : Option Value) : Bool :=
  match old with
  | none => true
  | some o => !(Value.eqv new o)

/-- Modelled from the spec: the snake_case → camelCase name translation.
The `camel` helper lives in the keycloak `module_utils` (not under
`src/`); per the spec (§4.3) it renders a snake_case parameter name as the
camelCase remote field name.  This follows CPython semantics of
`words.split('_')[0] + ''.join(x.capitalize() or '_' for x in
words.split('_')[1:])`: split on every underscore. -/
def splitUnder : List Char → List (List Char)
  | [] => [[]]
  | c :: rest =>
    match splitUnder rest with
    | [] => []
    | w :: ws => if c = '_' then [] :: w :: ws else (c :: w) :: ws

/-- Python `str.capitalize`: first character upper-cased, the rest
lower-cased. -/
def pyCapitalizeChars : List Char → List Char
  | [] => []
  | c :: cs => c.toUpper :: cs.map Char.toLower

/-- One piece of the camelCase join: `x.capitalize() or '_'` (an empty
piece, arising from consecutive underscores, yields a literal underscore). -/
def camelPiece (cs : List Char) : List Char :=
  match cs with
  | [] => ['_']
  | _ => pyCapitalizeChars cs

/-- Modelled from the spec: `camel` — snake_case to camelCase rendering of
a parameter name (§4.3); the first underscore-separated word is kept
verbatim, following words are capitalized and joined. -/
def camel (w : String) : String :=
  match splitUnder w.data with
  | [] => ""
  | x :: xs => String.mk (x ++ (xs.map camelPiece).flatten)

/-- The module's own parameter table (lines 333-355 of the module) plus
the two Ansible execution flags.  Each user-facing parameter is `none`
when the caller left it unset (Python `None`); Ansible's argument
processing fills `state` with `"present"`, `enabled` and `email_verified`
with `Value.bool true` by default, and guarantees `state` is one of
`"present"`/`"absent"` and that at least one of `id`/`name` is supplied.
The connection/authentication parameters (from `keycloak_argument_spec`,
not under `src/`) never reach the changeset — line 400 filters them out —
so they are not represented. -/
structure Params where
  state : String
  realm : String
  id : Option Value
  name : Option Value
  attributes : Option Value
  email : Option Value
  enabled : Option Value
  first_name : Option Value
  last_name : Option Value
  required_actions : Option Value
  credentials : Option Value
  email_verified : Option Value
  checkMode : Bool
  diffMode : Bool

/-- `module.params.get(x)` for the user-facing parameters. -/
def Params.get (p : Params) : String → Option Value
  | "id" => p.id
  | "name" => p.name
  | "attributes" => p.attributes
  | "email" => p.email
  | "enabled" => p.enabled
  | "first_name" => p.first_name
  | "last_name" => p.last_name
  | "required_actions" => p.required_actions
  | "credentials" => p.credentials
  | "email_verified" => p.email_verified
  | _ => none

/-- The parameter names surviving the filter of lines 397-402 when
non-null: all `module.params` keys except the connection/auth keys of
`keycloak_argument_spec()` (disjoint from the module's own parameters)
and the control parameters `state` and `realm`, in `argument_spec`
insertion order. -/
def userParamNames : List String :=
  ["id", "name", "attributes", "email", "enabled", "first_name",
   "last_name", "required_actions", "credentials", "email_verified"]

/-- The `user_params` list of line 397 paired with the supplied values:
the user-facing parameters whose value is non-null, in iteration order. -/
def suppliedParams (p : Params) : List (String × Value) :=
  userParamNames.filterMap (fun f => (p.get f).map (fun v => (f, v)))

/-- Lines 392-394: a bare (non-list) attribute value is wrapped into a
single-element list, a list passes through unchanged
(`[val] if not isinstance(val, list) else val`). -/
def normalizeAttrVal (v : Value) : Value :=
  match v with
  | .list vs => .list vs
  | v => .list [v]

/-- Lines 390-394 applied to the whole `attributes` dict: every value is
normalized in place.  Ansible's `type=dict` guarantees the parameter is a
dict; other shapes are returned unchanged. -/
def normalizeAttributes (v : Value) : Value :=
  match v with
  | .dict es => .dict (es.map (fun e => (e.1, normalizeAttrVal e.2)))
  | v => v

/-- Lines 390-394: `module.params["attributes"]` is rewritten with all
attribute values normalized to lists, when the parameter was supplied. -/
def normalizeParams (p : Params) : Params :=
  match p.attributes with
  | none => p
  | some a => { p with attributes := some (normalizeAttributes a) }

/-- One iteration of the changeset loop of lines 416-424: the `name`
parameter is recorded under `camel("username")` unconditionally, the
(unreachable) `user_groups` parameter under `camel("groups")`, and any
other parameter under its own camelCase name whenever the new value
differs from `before_user[param]` (absent ⇒ `None`). -/
def csStep (before : Dict) (cs : Dict) (pv : String × Value) : Dict :=
  let old := dictGet before pv.1
  if pv.1 = "name" then dictSet cs (camel "username") pv.2
  else if pv.1 = "user_groups" then dictSet cs (camel "groups") pv.2
  else if pyNe pv.2 old then dictSet cs (camel pv.1) pv.2
  else cs

/-- The proposed changeset of lines 413-424: fold the changeset loop over
the supplied user parameters, starting from the empty dict. -/
def buildChangeset (p : Params) (before : Dict) : Dict :=
  (suppliedParams p).foldl (csStep before) []

/-- The remote field name a parameter's value is recorded under: the code
special-cases `name` (→ `username`) and `user_groups` (→ `groups`), and
renders every other name with `camel`. -/
def translate (f : String) : String :=
  if f = "name" then camel "username"
  else if f = "user_groups" then camel "groups"
  else camel f

/-- A single call made to the KeycloakAPI gateway, with its payload. -/
inductive GCall : Type where
  | getByName (name : Option Value) : GCall
  | getById (uid : Value) : GCall
  | createUser (body : Dict) : GCall
  | updateUser (body : Dict) : GCall
  | deleteUser (uid : Value) : GCall

/-- Whether a gateway call mutates remote state (create/update/delete as
opposed to the read-only lookups). -/
def GCall.isMutating : GCall → Bool
  | .createUser _ => true
  | .updateUser _ => true
  | .deleteUser _ => true
  | _ => false

/-- No mutating gateway call occurs in the trace. -/
def noMutations (calls : List GCall) : Bool :=
  calls.all (fun c => !c.isMutating)

/-- The KeycloakAPI collaborator (spec §6), abstracted over its internal
state `σ`: lookups may return a user representation or nothing, mutations
produce a new state. -/
structure Gateway (σ : Type) where
  byName : σ → Option Value → Option Dict
  byId : σ → Value → Option Dict
  create : σ → Dict → σ
  update : σ → Dict → σ
  delete : σ → Value → σ

/-- The result messages of the module, one constructor per `format`
string of `main` (the payloads are the interpolated values). -/
inductive Msg : Type where
  | empty : Msg
  | doesNotExist : Msg
  | nameRequired : Msg
  | created (name uid : Value) : Msg
  | noChanges (name : Value) : Msg
  | updated (uid : Value) : Msg
  | deleted (name : Value) : Msg

/-- The `result` dict handed to `exit_json`: `changed`, `msg`, the
optional `diff` pair (`none` models the initial `{}`), and the
`end_state`/`user` keys (`none` models "not yet set", i.e. the initial
absence of `end_state` and the initial `""` of `user`). -/
structure ModuleResult where
  changed : Bool
  msg : Msg
  diff : Option (Value × Value)
  end_state : Option Dict
  user : Option Dict

/-- How the invocation terminates: `exit_json`, `fail_json`, or an
uncaught Python exception (KeyError/TypeError on a missing key of a
fetched representation). -/
inductive Outcome : Type where
  | exited (r : ModuleResult) : Outcome
  | failed (m : Msg) : Outcome
  | pyError : Outcome

/-- Lines 405-408: look the user up by id when supplied, else by name. -/
def fetchBefore {σ : Type} (gw : Gateway σ) (s : σ) (p : Params) : Option Dict :=
  match p.id with
  | some u => gw.byId s u
  | none => gw.byName s p.name

/-- The gateway read performed by lines 405-408. -/
def fetchCall (p : Params) : GCall :=
  match p.id with
  | some u => GCall.getById u
  | none => GCall.getByName p.name

/-- Lines 431-463: the resource does not exist.  `state=absent` exits
unchanged; creation requires a name, honours check mode (exiting with the
initial `changed=False`), then creates and re-fetches by name. -/
def runMissing {σ : Type} (gw : Gateway σ) (s : σ) (p : Params) (desired : Dict)
    (fc : GCall) : Outcome × σ × List GCall :=
  if p.state = "absent" then
    (.exited { changed := false, msg := .doesNotExist,
               diff := if p.diffMode then some (.str "", .str "") else none,
               end_state := some [], user := some [] }, s, [fc])
  else
    match p.name with
    | none => (.failed .nameRequired, s, [fc])
    | some uname =>
      let dv := if p.diffMode then some (Value.str "", Value.dict desired) else none
      if p.checkMode then
        (.exited { changed := false, msg := .empty, diff := dv,
                   end_state := none, user := none }, s, [fc])
      else
        let s2 := gw.create s desired
        let calls := [fc, GCall.createUser desired, GCall.getByName (some uname)]
        match gw.byName s2 (some uname) with
        | none => (.pyError, s2, calls)
        | some after =>
          match dictGet after "username", dictGet after "id" with
          | some nm, some i =>
            (.exited { changed := true, msg := .created nm i, diff := dv,
                       end_state := some after, user := some after }, s2, calls)
          | _, _ => (.pyError, s2, calls)

/-- Lines 465-520: the resource exists.  `state=present` exits unchanged
when the merged desired dict equals the fetched one, otherwise honours
check mode and updates then re-fetches by id; any other state deletes by
id. -/
def runPresent {σ : Type} (gw : Gateway σ) (s : σ) (p : Params) (before desired : Dict)
    (fc : GCall) : Outcome × σ × List GCall :=
  if p.state = "present" then
    if dictEqv desired before then
      match dictGet before "username" with
      | some nm =>
        (.exited { changed := false, msg := .noChanges nm, diff := none,
                   end_state := some desired, user := some desired }, s, [fc])
      | none => (.pyError, s, [fc])
    else
      let dv := if p.diffMode then some (Value.dict before, Value.dict desired) else none
      if p.checkMode then
        (.exited { changed := true, msg := .empty, diff := dv,
                   end_state := none, user := none }, s, [fc])
      else
        let s2 := gw.update s desired
        match dictGet desired "id" with
        | none => (.pyError, s2, [fc, GCall.updateUser desired])
        | some u =>
          let calls := [fc, GCall.updateUser desired, GCall.getById u]
          match gw.byId s2 u with
          | none => (.pyError, s2, calls)
          | some after =>
            match dictGet after "id" with
            | some i =>
              (.exited { changed := true, msg := .updated i, diff := dv,
                         end_state := some after, user := some after }, s2, calls)
            | none => (.pyError, s2, calls)
  else
    let dv := if p.diffMode then some (Value.dict before, Value.str "") else none
    if p.checkMode then
      (.exited { changed := true, msg := .empty, diff := dv,
                 end_state := none, user := none }, s, [fc])
    else
      match dictGet before "id" with
      | none => (.pyError, s, [fc])
      | some u =>
        let s2 := gw.delete s u
        match dictGet before "username" with
        | some nm =>
          (.exited { changed := true, msg := .deleted nm, diff := dv,
                     end_state := some [], user := some [] }, s2, [fc, GCall.deleteUser u])
        | none => (.pyError, s2, [fc, GCall.deleteUser u])

/-- The body of `main` from line 390 on: normalize the attributes
parameter, fetch the current resource (an absent resource becomes the
empty dict, line 410-411), build the changeset and the merged desired
dict (lines 413-428), and dispatch on existence (line 431). -/
def runModule {σ : Type} (gw : Gateway σ) (s : σ) (p0 : Params) :
    Outcome × σ × List GCall :=
  let p := normalizeParams p0
  let before := (fetchBefore gw s p).getD []
  let desired := dictUpdate before (buildChangeset p before)
  if before.isEmpty then runMissing gw s p desired (fetchCall p)
  else runPresent gw s p before desired (fetchCall p)

/-- A toy in-memory gateway holding at most one stored user: `update` and
`create` store the sent body verbatim, lookups return the stored body,
`delete` clears it.  Used to state the idempotence claim, whose premise is
exactly such a gateway. -/
def storeGw : Gateway (Option Dict) where
  byName := fun s _ => s
  byId := fun s _ => s
  create := fun _ body => some body
  update := fun _ body => some body
  delete := fun _ _ => none

/-- The entry a single loop iteration (lines 416-424) contributes to the
changeset, if any. -/
def emit (before : Dict) (pv : String × Value) : Option (String × Value) :=
  if pv.1 = "name" then some (camel "username", pv.2)
  else if pv.1 = "user_groups" then some (camel "groups", pv.2)
  else if pyNe pv.2 (dictGet before pv.1) then some (camel pv.1, pv.2)
  else none

/-- Whether a value is a Python list (the `isinstance(val, list)` test of
line 393). -/
def Value.isListVal : Value → Bool
  | .list _ => true
  | _ => false

/-! Concrete fixtures used by counterexamples and witnesses: an invocation
supplying `name="x"` and the defaulted `enabled=true`/`email_verified=true`
(nothing else), against various stored users. -/

/-- A reachable parameter set: caller supplies `name` only; Ansible fills
`state`, `enabled` and `email_verified` with their defaults. -/
def pDemo : Params :=
  { state := "present", realm := "master", id := none,
    name := some (.str "x"), attributes := none, email := none,
    enabled := some (.bool true), first_name := none, last_name := none,
    required_actions := none, credentials := none,
    email_verified := some (.bool true), checkMode := false, diffMode := false }

/-- `pDemo` in check (dry-run) mode. -/
def pDemoCheck : Params := { pDemo with checkMode := true }

/-- `pDemo` with `state=absent` in check mode. -/
def pAbsentCheck : Params := { pDemoCheck with state := "absent" }

/-- Looking up by id with no name supplied. -/
def pNoName : Params := { pDemo with name := none, id := some (.str "1") }

/-- A stored user already in the desired state. -/
def RDemo : Dict :=
  [("id", .str "1"), ("username", .str "x"),
   ("enabled", .bool true), ("emailVerified", .bool true)]

/-- A stored user whose username is stale and which carries an `email`
field the caller never supplied. -/
def RStale : Dict :=
  [("id", .str "1"), ("username", .str "y"), ("email", .str "e"),
   ("enabled", .bool true), ("emailVerified", .bool true)]

/-- The merged desired dict for `pDemo` against `RStale`. -/
def desiredStale : Dict :=
  [("id", .str "1"), ("username", .str "x"), ("email", .str "e"),
   ("enabled", .bool true), ("emailVerified", .bool true)]

/-- A stored user matching the desired state except that its
`emailVerified` flag is false. -/
def RC6 : Dict :=
  [("id", .str "1"), ("username", .str "x"),
   ("enabled", .bool true), ("emailVerified", .bool false)]

/-- The merged desired dict for `pDemo` against `RC6`. -/
def desiredC6 : Dict :=
  [("id", .str "1"), ("username", .str "x"),
   ("enabled", .bool true), ("emailVerified", .bool true)]

/-! From here on: theorems. -/

mutual
theorem Value.beq_refl : ∀ v : Value, v.beq v = true
  | .null => rfl
  | .str _ => by simp [Value.beq]
  | .bool _ => by simp [Value.beq]
  | .num _ => by simp [Value.beq]
  | .list vs => by simp only [Value.beq]; exact Value.beqList_refl vs
  | .dict es => by simp only [Value.beq]; exact Value.beqEntries_refl es

theorem Value.beqList_refl : ∀ vs : List Value, Value.beqList vs vs = true
  | [] => rfl
  | v :: vs => by
    simp only [Value.beqList, Bool.and_eq_true]
    exact ⟨Value.beq_refl v, Value.beqList_refl vs⟩

theorem Value.beqEntries_refl : ∀ es : List (String × Value), Value.beqEntries es es = true
  | [] => rfl
  | (k, v) :: es => by
    simp only [Value.beqEntries, Bool.and_eq_true, beq_self_eq_true, true_and]
    exact ⟨Value.beq_refl v, Value.beqEntries_refl es⟩
end

theorem Value.eqv_refl (v : Value) : v.eqv v = true := Value.beq_refl v.norm

/-! Association-list lemmas for the Python dict model. -/

theorem dictGet_append (d₁ d₂ : Dict) (k : String) :
    dictGet (d₁ ++ d₂) k =
      match dictGet d₁ k with
      | some v => some v
      | none => dictGet d₂ k := by
  induction d₁ with
  | nil => simp [dictGet]
  | cons e es ih =>
    by_cases h : e.1 = k <;> simp [dictGet, h, ih]

theorem dictGet_mapReplace_self (d : Dict) (k : String) (v : Value)
    (h : dictContains d k = true) :
    dictGet (d.map (fun e => if e.1 = k then (k, v) else e)) k = some v := by
  induction d with
  | nil => simp [dictContains, dictGet] at h
  | cons e es ih =>
    by_cases he : e.1 = k
    · simp [dictGet, he]
    · have h' : dictContains es k = true := by
        simpa [dictContains, dictGet, he] using h
      simp [dictGet, he, ih h']

theorem dictGet_mapReplace_ne (d : Dict) (k k' : String) (v : Value) (h : k' ≠ k) :
    dictGet (d.map (fun e => if e.1 = k then (k, v) else e)) k' = dictGet d k' := by
  induction d with
  | nil => simp [dictGet]
  | cons e es ih =>
    by_cases hek : e.1 = k
    · simp [dictGet, hek, Ne.symm h, ih]
    · by_cases he : e.1 = k' <;> simp [dictGet, hek, he, h, ih]

theorem dictGet_dictSet_self (d : Dict) (k : String) (v : Value) :
    dictGet (dictSet d k v) k = some v := by
  unfold dictSet
  by_cases h : dictContains d k = true
  · simp only [h, if_true]
    exact dictGet_mapReplace_self d k v h
  · rw [if_neg (by simp_all), dictGet_append]
    unfold dictContains at h
    cases hg : dictGet d k with
    | some w => simp [hg, Option.isSome] at h
    | none => simp [dictGet]

theorem dictGet_dictSet_ne (d : Dict) (k k' : String) (v : Value) (h : k' ≠ k) :
    dictGet (dictSet d k v) k' = dictGet d k' := by
  unfold dictSet
  by_cases hc : dictContains d k = true
  · simp only [hc, if_true]
    exact dictGet_mapReplace_ne d k k' v h
  · rw [if_neg (by simp_all), dictGet_append]
    cases hg : dictGet d k' with
    | some w => simp
    | none => simp [dictGet, Ne.symm h]

theorem keysOf_dictSet_mem (d : Dict) (k : String) (v : Value)
    (h : dictContains d k = true) : keysOf (dictSet d k v) = keysOf d := by
  unfold dictSet
  simp only [h, if_true, keysOf, List.map_map]
  apply List.map_congr_left
  intro e _
  by_cases he : e.1 = k <;> simp [he]

theorem keysOf_dictSet_fresh (d : Dict) (k : String) (v : Value)
    (h : dictContains d k = false) : keysOf (dictSet d k v) = keysOf d ++ [k] := by
  unfold dictSet
  simp [h, keysOf]

theorem dictContains_iff_mem_keysOf (d : Dict) (k : String) :
    dictContains d k = true ↔ k ∈ keysOf d := by
  induction d with
  | nil => simp [dictContains, dictGet, keysOf]
  | cons e es ih =>
    by_cases he : e.1 = k
    · simp [dictContains, dictGet, he, keysOf]
    · have hstep : dictContains (e :: es) k = dictContains es k := by
        simp [dictContains, dictGet, he]
      rw [hstep, ih]
      simp only [keysOf, List.map_cons, List.mem_cons]
      constructor
      · intro h; right; exact h
      · rintro (h | h)
        · exact absurd h.symm he
        · exact h

theorem nodup_keysOf_dictSet (d : Dict) (k : String) (v : Value)
    (h : (keysOf d).Nodup) : (keysOf (dictSet d k v)).Nodup := by
  cases hc : dictContains d k with
  | true => rw [keysOf_dictSet_mem d k v hc]; exact h
  | false =>
    rw [keysOf_dictSet_fresh d k v hc]
    have : k ∉ keysOf d := by
      intro hm
      rw [← dictContains_iff_mem_keysOf] at hm
      simp [hc] at hm
    simp [List.nodup_append, h, this]

theorem dictGet_eq_some_iff_mem (d : Dict) (k : String) (v : Value)
    (h : (keysOf d).Nodup) : dictGet d k = some v ↔ (k, v) ∈ d := by
  induction d with
  | nil => simp [dictGet]
  | cons e es ih =>
    simp only [keysOf, List.map_cons, List.nodup_cons] at h
    by_cases he : e.1 = k
    · subst he
      simp only [dictGet, if_true, List.mem_cons]
      constructor
      · rintro h'
        left
        cases e
        simp_all
      · rintro (h' | h')
        · cases e; simp_all
        · exfalso
          exact h.1 (by simpa [keysOf] using List.mem_map_of_mem Prod.fst h')
    · simp only [dictGet, he, if_false, List.mem_cons, ih h.2]
      constructor
      · intro h'; right; exact h'
      · rintro (h' | h')
        · exfalso; apply he; rw [← h']
        · exact h'

theorem dictGet_dictUpdate (d cs : Dict) (k : String)
    (h : (keysOf cs).Nodup) :
    dictGet (dictUpdate d cs) k =
      match dictGet cs k with
      | some v => some v
      | none => dictGet d k := by
  induction cs generalizing d with
  | nil => simp [dictUpdate, dictGet]
  | cons e es ih =>
    simp only [keysOf, List.map_cons, List.nodup_cons] at h
    have step : dictUpdate d (e :: es) = dictUpdate (dictSet d e.1 e.2) es := by
      simp [dictUpdate]
    rw [step, ih _ h.2]
    by_cases he : e.1 = k
    · subst he
      have : dictGet es e.1 = none := by
        cases hg : dictGet es e.1 with
        | none => rfl
        | some w =>
          exfalso
          have hm : (e.1, w) ∈ es := (dictGet_eq_some_iff_mem es e.1 w h.2).mp hg
          exact h.1 (by simpa [keysOf] using List.mem_map_of_mem Prod.fst hm)
      simp [this, dictGet, dictGet_dictSet_self]
    · rw [dictGet_dictSet_ne _ _ _ _ (by intro hh; exact he hh.symm)]
      cases hg : dictGet es k <;> simp [dictGet, he, hg]

theorem dictSet_self (d : Dict) (k : String) (v : Value)
    (h : (keysOf d).Nodup) (hget : dictGet d k = some v) : dictSet d k v = d := by
  have hc : dictContains d k = true := by simp [dictContains, hget]
  unfold dictSet
  simp only [hc, if_true]
  induction d with
  | nil => simp [dictGet] at hget
  | cons e es ih =>
    simp only [keysOf, List.map_cons, List.nodup_cons] at h
    by_cases he : e.1 = k
    · subst he
      simp only [dictGet, if_true] at hget
      have : ∀ f ∈ es, (if f.1 = e.1 then (e.1, v) else f) = f := by
        intro f hf
        have : f.1 ≠ e.1 := by
          intro hh
          exact h.1 (hh ▸ (by simpa [keysOf] using List.mem_map_of_mem Prod.fst hf))
        simp [this]
      cases e
      simp_all [List.map_congr_left this]
    · simp only [dictGet, he, if_false] at hget
      have hc' : dictContains es k = true := by simp [dictContains, hget]
      simp [he, ih h.2 hget hc']

theorem dictUpdate_self (d cs : Dict) (h : (keysOf d).Nodup)
    (hall : ∀ e ∈ cs, dictGet d e.1 = some e.2) : dictUpdate d cs = d := by
  induction cs with
  | nil => simp [dictUpdate]
  | cons e es ih =>
    have step : dictUpdate d (e :: es) = dictUpdate (dictSet d e.1 e.2) es := by
      simp [dictUpdate]
    rw [step, dictSet_self d e.1 e.2 h (hall e (by simp))]
    exact ih (fun f hf => hall f (by simp [hf]))

theorem dictUpdate_ne_nil (d cs : Dict) (h : d ≠ []) : dictUpdate d cs ≠ [] := by
  induction cs generalizing d with
  | nil => simpa [dictUpdate]
  | cons e es ih =>
    have step : dictUpdate d (e :: es) = dictUpdate (dictSet d e.1 e.2) es := by
      simp [dictUpdate]
    rw [step]
    apply ih
    unfold dictSet
    by_cases hc : dictContains d e.1 = true <;> simp [hc, h]

theorem nodup_keysOf_dictUpdate (d cs : Dict) (h : (keysOf d).Nodup) :
    (keysOf (dictUpdate d cs)).Nodup := by
  induction cs generalizing d with
  | nil => simpa [dictUpdate]
  | cons e es ih =>
    have step : dictUpdate d (e :: es) = dictUpdate (dictSet d e.1 e.2) es := by
      simp [dictUpdate]
    rw [step]
    exact ih _ (nodup_keysOf_dictSet d e.1 e.2 h)

theorem dictEqv_refl (d : Dict) (h : (keysOf d).Nodup) : dictEqv d d = true := by
  have hle : dictLe d d = true := by
    rw [dictLe, List.all_eq_true]
    intro e he
    rw [(dictGet_eq_some_iff_mem d e.1 e.2 h).mpr (by cases e; exact he)]
    exact Value.eqv_refl e.2
  simp [dictEqv, hle]

/-! Characterization of the changeset builder. -/

theorem csStep_eq_emit (before cs : Dict) (pv : String × Value) :
    csStep before cs pv =
      match emit before pv with
      | some e => dictSet cs e.1 e.2
      | none => cs := by
  unfold csStep emit
  by_cases h1 : pv.1 = "name"
  · simp [h1]
  · by_cases h2 : pv.1 = "user_groups"
    · simp [h1, h2]
    · by_cases h3 : pyNe pv.2 (dictGet before pv.1) = true <;> simp [h1, h2, h3]

theorem emit_key (before : Dict) (pv : String × Value) (e : String × Value)
    (h : emit before pv = some e) : e.1 = translate pv.1 ∧ e.2 = pv.2 := by
  unfold emit at h
  unfold translate
  by_cases h1 : pv.1 = "name"
  · simp [h1] at h ⊢; simp [← h]
  · by_cases h2 : pv.1 = "user_groups"
    · simp [h1, h2] at h ⊢; simp [← h]
    · by_cases h3 : pyNe pv.2 (dictGet before pv.1) = true
      · simp [h1, h2, h3] at h ⊢; simp [← h]
      · simp [h1, h2, h3] at h

theorem foldl_csStep_append (before : Dict) (L : List (String × Value)) (acc : Dict)
    (hfresh : ∀ pv ∈ L, dictContains acc (translate pv.1) = false)
    (hnd : (L.map (fun pv => translate pv.1)).Nodup) :
    L.foldl (csStep before) acc = acc ++ L.filterMap (emit before) := by
  induction L generalizing acc with
  | nil => simp
  | cons pv L ih =>
    simp only [List.map_cons, List.nodup_cons] at hnd
    rw [List.foldl_cons, csStep_eq_emit]
    cases he : emit before pv with
    | none =>
      simp only [List.filterMap_cons, he]
      exact ih acc (fun q hq => hfresh q (by simp [hq])) hnd.2
    | some e =>
      obtain ⟨hek, _⟩ := emit_key before pv e he
      have hfr : dictContains acc e.1 = false := hek ▸ hfresh pv (by simp)
      have hset : dictSet acc e.1 e.2 = acc ++ [e] := by
        unfold dictSet
        simp [hfr]
      simp only [List.filterMap_cons, he]
      rw [hset]
      rw [ih (acc ++ [e]) ?_ hnd.2]
      · simp
      · intro q hq
        have h1 : dictContains acc (translate q.1) = false := hfresh q (by simp [hq])
        have h2 : translate q.1 ≠ e.1 := by
          rw [hek]
          intro hc
          exact hnd.1 (hc ▸ List.mem_map_of_mem (fun pv => translate pv.1) hq)
        unfold dictContains at h1 ⊢
        rw [dictGet_append]
        cases hg : dictGet acc (translate q.1) with
        | some w => simp [hg, Option.isSome] at h1
        | none => simp [dictGet, Ne.symm h2]

theorem keysOf_filterMap_emit (before : Dict) (L : List (String × Value)) :
    ∃ sub : List String,
      keysOf (L.filterMap (emit before)) = sub ∧
      sub.Sublist (L.map (fun pv => translate pv.1)) := by
  induction L with
  | nil => exact ⟨[], rfl, by simp⟩
  | cons pv L ih =>
    obtain ⟨sub, hs, hsl⟩ := ih
    cases he : emit before pv with
    | none =>
      refine ⟨sub, by simp [List.filterMap_cons, he, hs], ?_⟩
      simp only [List.map_cons]
      exact hsl.cons _
    | some e =>
      obtain ⟨hek, _⟩ := emit_key before pv e he
      unfold keysOf at hs ⊢
      refine ⟨e.1 :: sub, ?_, ?_⟩
      · simp [List.filterMap_cons, he, hs]
      · simp only [List.map_cons, hek]
        exact hsl.cons₂ _

theorem keysOf_suppliedParams_sublist (p : Params) :
    ((suppliedParams p).map Prod.fst).Sublist userParamNames := by
  unfold suppliedParams
  generalize userParamNames = names
  induction names with
  | nil => simp
  | cons f names ih =>
    cases hg : p.get f with
    | none =>
      simp only [List.filterMap_cons, hg]
      exact ih.cons _
    | some v =>
      simp only [List.filterMap_cons, hg, Option.map_some', List.map_cons]
      exact ih.cons₂ _

theorem translate_nodup : ((userParamNames.map translate)).Nodup := by decide

theorem suppliedParams_translate_nodup (p : Params) :
    ((suppliedParams p).map (fun pv => translate pv.1)).Nodup := by
  have h1 : (suppliedParams p).map (fun pv => translate pv.1) =
      ((suppliedParams p).map Prod.fst).map translate := by
    simp [List.map_map]
  rw [h1]
  exact translate_nodup.sublist ((keysOf_suppliedParams_sublist p).map translate)

theorem buildChangeset_eq_filterMap (p : Params) (before : Dict) :
    buildChangeset p before = (suppliedParams p).filterMap (emit before) := by
  unfold buildChangeset
  rw [foldl_csStep_append before (suppliedParams p) []
    (fun pv _ => by simp [dictContains, dictGet])
    (suppliedParams_translate_nodup p)]
  simp

theorem nodup_keysOf_changeset (p : Params) (before : Dict) :
    (keysOf (buildChangeset p before)).Nodup := by
  rw [buildChangeset_eq_filterMap]
  obtain ⟨sub, hs, hsl⟩ := keysOf_filterMap_emit before (suppliedParams p)
  rw [hs]
  exact (suppliedParams_translate_nodup p).sublist hsl

theorem mem_suppliedParams (p : Params) (f : String) (v : Value) :
    (f, v) ∈ suppliedParams p ↔ f ∈ userParamNames ∧ p.get f = some v := by
  unfold suppliedParams
  rw [List.mem_filterMap]
  constructor
  · rintro ⟨a, ha, hm⟩
    cases hg : p.get a with
    | none => simp [hg] at hm
    | some w =>
      simp only [hg, Option.map_some', Option.some.injEq, Prod.mk.injEq] at hm
      obtain ⟨h1, h2⟩ := hm
      subst h1; subst h2
      exact ⟨ha, hg⟩
  · rintro ⟨hf, hg⟩
    exact ⟨f, hf, by simp [hg]⟩

/-- Membership characterization of the changeset: `(k, v)` is an entry iff
some user parameter `f` was supplied with value `v`, translates to `k`,
and either is the unconditionally recorded `name` or differs from
`before_user[f]` (the code looks the old value up under the snake_case
parameter name, not the translated one). -/
theorem mem_changeset (p : Params) (before : Dict) (k : String) (v : Value) :
    (k, v) ∈ buildChangeset p before ↔
      ∃ f, f ∈ userParamNames ∧ p.get f = some v ∧ translate f = k ∧
        (f = "name" ∨ (f ≠ "name" ∧ pyNe v (dictGet before f) = true)) := by
  rw [buildChangeset_eq_filterMap, List.mem_filterMap]
  constructor
  · rintro ⟨pv, hpv, he⟩
    obtain ⟨f, w⟩ := pv
    obtain ⟨hf, hg⟩ := (mem_suppliedParams p f w).mp hpv
    have hug : f ≠ "user_groups" := by
      intro hc; subst hc; revert hf; decide
    refine ⟨f, hf, ?_⟩
    unfold emit at he
    by_cases h1 : f = "name"
    · simp only [h1, if_true] at he
      obtain ⟨hk, hv⟩ := Prod.mk.injEq .. ▸ (Option.some.injEq .. ▸ he)
      subst hv
      refine ⟨hg, ?_, Or.inl h1⟩
      rw [← hk]
      simp [translate, h1]
    · simp only [h1, if_false, hug, if_false] at he
      by_cases h3 : pyNe w (dictGet before f) = true
      · simp only [h3, if_true, Option.some.injEq, Prod.mk.injEq] at he
        obtain ⟨hk, hv⟩ := he
        subst hv
        refine ⟨hg, ?_, Or.inr ⟨h1, h3⟩⟩
        rw [← hk]
        simp [translate, h1, hug]
      · simp [h3] at he
  · rintro ⟨f, hf, hg, hk, hcond⟩
    refine ⟨(f, v), (mem_suppliedParams p f v).mpr ⟨hf, hg⟩, ?_⟩
    have hug : f ≠ "user_groups" := by
      intro hc; subst hc; revert hf; decide
    unfold emit
    rcases hcond with h1 | ⟨h1, h3⟩
    · simp only [h1, if_true, Option.some.injEq, Prod.mk.injEq]
      constructor
      · rw [← hk]; simp [translate, h1]
      · trivial
    · simp only [h1, if_false, hug, if_false, h3, if_true, Option.some.injEq,
        Prod.mk.injEq]
      constructor
      · rw [← hk]; simp [translate, h1, hug]
      · trivial

/-- `dictGet` version of the changeset characterization. -/
theorem dictGet_changeset (p : Params) (before : Dict) (k : String) (v : Value) :
    dictGet (buildChangeset p before) k = some v ↔
      ∃ f, f ∈ userParamNames ∧ p.get f = some v ∧ translate f = k ∧
        (f = "name" ∨ (f ≠ "name" ∧ pyNe v (dictGet before f) = true)) := by
  rw [dictGet_eq_some_iff_mem _ _ _ (nodup_keysOf_changeset p before)]
  exact mem_changeset p before k v

theorem translate_inj : ∀ f ∈ userParamNames, ∀ g ∈ userParamNames,
    translate f = translate g → f = g := by decide

theorem translate_image_snake : ∀ f ∈ userParamNames, ∀ g ∈ userParamNames,
    translate g = f → g = f := by decide

/-! Normalization only touches the `attributes` parameter. -/

theorem normalizeParams_state (p : Params) : (normalizeParams p).state = p.state := by
  unfold normalizeParams; cases p.attributes <;> rfl

theorem normalizeParams_checkMode (p : Params) :
    (normalizeParams p).checkMode = p.checkMode := by
  unfold normalizeParams; cases p.attributes <;> rfl

theorem normalizeParams_diffMode (p : Params) :
    (normalizeParams p).diffMode = p.diffMode := by
  unfold normalizeParams; cases p.attributes <;> rfl

theorem normalizeParams_name (p : Params) : (normalizeParams p).name = p.name := by
  unfold normalizeParams; cases p.attributes <;> rfl

theorem normalizeParams_id (p : Params) : (normalizeParams p).id = p.id := by
  unfold normalizeParams; cases p.attributes <;> rfl

theorem normalizeParams_of_attributes_none (p : Params) (h : p.attributes = none) :
    normalizeParams p = p := by
  unfold normalizeParams; rw [h]

theorem fetchBefore_normalizeParams {σ : Type} (gw : Gateway σ) (s : σ) (p : Params) :
    fetchBefore gw s (normalizeParams p) = fetchBefore gw s p := by
  unfold fetchBefore
  rw [normalizeParams_id, normalizeParams_name]

theorem fetchCall_normalizeParams (p : Params) :
    fetchCall (normalizeParams p) = fetchCall p := by
  unfold fetchCall
  rw [normalizeParams_id, normalizeParams_name]

/-! Control-flow spine of `runModule`. -/

theorem runModule_missing {σ : Type} (gw : Gateway σ) (s0 : σ) (p : Params)
    (hfetch : fetchBefore gw s0 p = none) :
    runModule gw s0 p =
      runMissing gw s0 (normalizeParams p)
        (dictUpdate [] (buildChangeset (normalizeParams p) [])) (fetchCall p) := by
  simp only [runModule]
  rw [fetchBefore_normalizeParams, hfetch, fetchCall_normalizeParams]
  rfl

theorem runModule_present {σ : Type} (gw : Gateway σ) (s0 : σ) (p : Params) (R : Dict)
    (hfetch : fetchBefore gw s0 p = some R) (hne : R ≠ []) :
    runModule gw s0 p =
      runPresent gw s0 (normalizeParams p) R
        (dictUpdate R (buildChangeset (normalizeParams p) R)) (fetchCall p) := by
  simp only [runModule]
  rw [fetchBefore_normalizeParams, hfetch, fetchCall_normalizeParams]
  cases R with
  | nil => exact absurd rfl hne
  | cons e es => rfl

/-! Branch lemmas for the present-resource paths. -/

theorem runPresent_noChange {σ : Type} (gw : Gateway σ) (s : σ) (p : Params)
    (before desired : Dict) (fc : GCall) (nm : Value)
    (hst : p.state = "present") (heq : dictEqv desired before = true)
    (husr : dictGet before "username" = some nm) :
    runPresent gw s p before desired fc =
      (.exited { changed := false, msg := .noChanges nm, diff := none,
                 end_state := some desired, user := some desired }, s, [fc]) := by
  unfold runPresent
  rw [if_pos hst, if_pos heq, husr]

theorem runPresent_update_checkMode {σ : Type} (gw : Gateway σ) (s : σ) (p : Params)
    (before desired : Dict) (fc : GCall)
    (hst : p.state = "present") (heq : dictEqv desired before = false)
    (hck : p.checkMode = true) :
    runPresent gw s p before desired fc =
      (.exited { changed := true, msg := .empty,
                 diff := if p.diffMode then some (Value.dict before, Value.dict desired) else none,
                 end_state := none, user := none }, s, [fc]) := by
  unfold runPresent
  rw [if_pos hst, if_neg (by simp [heq]), if_pos hck]

theorem runPresent_update_calls {σ : Type} (gw : Gateway σ) (s : σ) (p : Params)
    (before desired : Dict) (fc : GCall)
    (hst : p.state = "present") (heq : dictEqv desired before = false)
    (hck : p.checkMode = false) :
    GCall.updateUser desired ∈ (runPresent gw s p before desired fc).2.2 := by
  unfold runPresent
  rw [if_pos hst, if_neg (by simp [heq]), if_neg (by simp [hck])]
  cases hu : dictGet desired "id" with
  | none => simp [hu]
  | some u =>
    simp only [hu]
    cases ha : (gw.byId (gw.update s desired) u) with
    | none => simp [ha]
    | some after =>
      simp only [ha]
      cases hi : dictGet after "id" with
      | none => simp [hi]
      | some i => simp [hi]

theorem runPresent_update_full {σ : Type} (gw : Gateway σ) (s : σ) (p : Params)
    (before desired after : Dict) (fc : GCall) (u i : Value)
    (hst : p.state = "present") (heq : dictEqv desired before = false)
    (hck : p.checkMode = false) (hu : dictGet desired "id" = some u)
    (hafter : gw.byId (gw.update s desired) u = some after)
    (hi : dictGet after "id" = some i) :
    runPresent gw s p before desired fc =
      (.exited { changed := true, msg := .updated i,
                 diff := if p.diffMode then some (Value.dict before, Value.dict desired) else none,
                 end_state := some after, user := some after },
       gw.update s desired, [fc, GCall.updateUser desired, GCall.getById u]) := by
  unfold runPresent
  rw [if_pos hst, if_neg (by simp [heq]), if_neg (by simp [hck])]
  simp only [hu, hafter, hi]

theorem runPresent_delete_checkMode {σ : Type} (gw : Gateway σ) (s : σ) (p : Params)
    (before desired : Dict) (fc : GCall)
    (hst : p.state ≠ "present") (hck : p.checkMode = true) :
    runPresent gw s p before desired fc =
      (.exited { changed := true, msg := .empty,
                 diff := if p.diffMode then some (Value.dict before, Value.str "") else none,
                 end_state := none, user := none }, s, [fc]) := by
  unfold runPresent
  rw [if_neg hst, if_pos hck]

/-! Branch lemmas for the missing-resource paths. -/

theorem runMissing_absent {σ : Type} (gw : Gateway σ) (s : σ) (p : Params)
    (desired : Dict) (fc : GCall) (hst : p.state = "absent") :
    runMissing gw s p desired fc =
      (.exited { changed := false, msg := .doesNotExist,
                 diff := if p.diffMode then some (.str "", .str "") else none,
                 end_state := some [], user := some [] }, s, [fc]) := by
  unfold runMissing
  rw [if_pos hst]

theorem runMissing_noName {σ : Type} (gw : Gateway σ) (s : σ) (p : Params)
    (desired : Dict) (fc : GCall) (hst : p.state ≠ "absent") (hname : p.name = none) :
    runMissing gw s p desired fc = (.failed .nameRequired, s, [fc]) := by
  unfold runMissing
  rw [if_neg hst, hname]

theorem runMissing_checkMode_create {σ : Type} (gw : Gateway σ) (s : σ) (p : Params)
    (desired : Dict) (fc : GCall) (v : Value)
    (hst : p.state ≠ "absent") (hname : p.name = some v) (hck : p.checkMode = true) :
    runMissing gw s p desired fc =
      (.exited { changed := false, msg := .empty,
                 diff := if p.diffMode then some (Value.str "", Value.dict desired) else none,
                 end_state := none, user := none }, s, [fc]) := by
  unfold runMissing
  rw [if_neg hst, hname]
  simp only [hck, if_true]

theorem runMissing_create_calls {σ : Type} (gw : Gateway σ) (s : σ) (p : Params)
    (desired : Dict) (fc : GCall) (v : Value)
    (hst : p.state ≠ "absent") (hname : p.name = some v) (hck : p.checkMode = false) :
    (runMissing gw s p desired fc).2.2 =
      [fc, GCall.createUser desired, GCall.getByName (some v)] := by
  unfold runMissing
  rw [if_neg hst, hname]
  simp only [hck, Bool.false_eq_true, if_false]
  cases ha : (gw.byName (gw.create s desired) (some v)) with
  | none => simp [ha]
  | some after =>
    cases hn : dictGet after "username" with
    | none => simp [ha, hn]
    | some nm =>
      cases hi : dictGet after "id" with
      | none => simp [ha, hn, hi]
      | some i => simp [ha, hn, hi]

/-! In check mode no branch reaches a mutating call: the trace is exactly
the initial read-only lookup. -/

theorem runMissing_checkMode_trace {σ : Type} (gw : Gateway σ) (s : σ) (p : Params)
    (desired : Dict) (fc : GCall) (hck : p.checkMode = true) :
    (runMissing gw s p desired fc).2.2 = [fc] := by
  unfold runMissing
  by_cases hst : p.state = "absent"
  · rw [if_pos hst]
  · rw [if_neg hst]
    cases p.name with
    | none => rfl
    | some v => simp only [hck, if_true]

theorem runPresent_checkMode_trace {σ : Type} (gw : Gateway σ) (s : σ) (p : Params)
    (before desired : Dict) (fc : GCall) (hck : p.checkMode = true) :
    (runPresent gw s p before desired fc).2.2 = [fc] := by
  unfold runPresent
  by_cases hst : p.state = "present"
  · rw [if_pos hst]
    by_cases heq : dictEqv desired before = true
    · rw [if_pos heq]
      cases dictGet before "username" <;> rfl
    · rw [if_neg heq]
      simp only [hck, if_true]
  · rw [if_neg hst]
    simp only [hck, if_true]

/-! Stability: rebuilding the changeset against the merged desired dict
and merging again is a fixed point.  This drives the idempotence claim. -/

theorem dictGet_dictUpdate_changeset (p : Params) (R : Dict) (k : String) :
    dictGet (dictUpdate R (buildChangeset p R)) k =
      match dictGet (buildChangeset p R) k with
      | some v => some v
      | none => dictGet R k :=
  dictGet_dictUpdate R _ k (nodup_keysOf_changeset p R)

theorem changeset_stable (p : Params) (R : Dict) (hnod : (keysOf R).Nodup) :
    dictUpdate (dictUpdate R (buildChangeset p R))
      (buildChangeset p (dictUpdate R (buildChangeset p R))) =
    dictUpdate R (buildChangeset p R) := by
  set D := dictUpdate R (buildChangeset p R) with hD
  apply dictUpdate_self D _ (nodup_keysOf_dictUpdate R _ hnod)
  rintro ⟨k, v⟩ he
  obtain ⟨f, hf, hg, hk, hcond⟩ := (mem_changeset p D k v).mp he
  rcases hcond with h1 | ⟨h1, h3⟩
  · have hm : (k, v) ∈ buildChangeset p R :=
      (mem_changeset p R k v).mpr ⟨f, hf, hg, hk, Or.inl h1⟩
    have hcs : dictGet (buildChangeset p R) k = some v :=
      (dictGet_eq_some_iff_mem _ _ _ (nodup_keysOf_changeset p R)).mpr hm
    rw [hD, dictGet_dictUpdate_changeset, hcs]
  · by_cases hc : pyNe v (dictGet R f) = true
    · have hm : (k, v) ∈ buildChangeset p R :=
        (mem_changeset p R k v).mpr ⟨f, hf, hg, hk, Or.inr ⟨h1, hc⟩⟩
      have hcs : dictGet (buildChangeset p R) k = some v :=
        (dictGet_eq_some_iff_mem _ _ _ (nodup_keysOf_changeset p R)).mpr hm
      rw [hD, dictGet_dictUpdate_changeset, hcs]
    · exfalso
      have hnone : dictGet (buildChangeset p R) f = none := by
        cases hw : dictGet (buildChangeset p R) f with
        | none => rfl
        | some w =>
          exfalso
          obtain ⟨g, hgmem, hgget, hgtrans, hgcond⟩ :=
            (dictGet_changeset p R f w).mp hw
          have hgf : g = f := translate_image_snake f hf g hgmem hgtrans
          subst hgf
          rw [hg] at hgget
          injection hgget with hwv
          subst hwv
          rcases hgcond with h1' | ⟨_, h3'⟩
          · exact h1 h1'
          · exact hc h3'
      have hDf : dictGet D f = dictGet R f := by
        rw [hD, dictGet_dictUpdate_changeset, hnone]
      rw [hDf] at h3
      exact hc h3

/-! ## Claim C9 -/

/-- C9 (attribute normalization round-trip): normalization maps a bare
scalar `v` to the single-element list `[v]` and leaves any list unchanged,
so `normalize(v) = normalize([v])` for every scalar and
`normalize(L) = L` for every list. -/
theorem C9_attribute_normalization :
    (∀ v : Value, v.isListVal = false →
      normalizeAttrVal v = Value.list [v] ∧
      normalizeAttrVal v = normalizeAttrVal (Value.list [v])) ∧
    (∀ vs : List Value, normalizeAttrVal (Value.list vs) = Value.list vs) := by
  constructor
  · intro v hv
    cases v <;> first
      | exact ⟨rfl, rfl⟩
      | simp [Value.isListVal] at hv
  · intro vs
    rfl

theorem C9_attribute_normalization_witness :
    (Value.str "v").isListVal = false ∧
    normalizeAttrVal (Value.str "v") = Value.list [Value.str "v"] ∧
    normalizeAttrVal (Value.str "v") = normalizeAttrVal (Value.list [Value.str "v"]) :=
  ⟨rfl, C9_attribute_normalization.1 (Value.str "v") rfl⟩

/-! ## Claim C3 -/

theorem translate_eq_camel : ∀ f ∈ userParamNames, f ≠ "name" →
    translate f = camel f := by decide

/-- C3 (name translation exclusivity): the supplied `name` parameter is
recorded in the changeset under the remote field name `username`, and any
value the changeset holds under the camelCase rendering of another
parameter's own name is exactly that parameter's supplied value — no other
parameter has its name substituted. -/
theorem C3_name_translation (p : Params) (R : Dict) :
    (∀ v, p.name = some v → dictGet (buildChangeset p R) "username" = some v) ∧
    (∀ f ∈ userParamNames, f ≠ "name" →
      ∀ w, dictGet (buildChangeset p R) (camel f) = some w → p.get f = some w) := by
  constructor
  · intro v hv
    exact (dictGet_changeset p R "username" v).mpr
      ⟨"name", by decide, hv, by decide, Or.inl rfl⟩
  · intro f hf hne w hw
    obtain ⟨g, hgmem, hgget, hgtrans, _⟩ := (dictGet_changeset p R (camel f) w).mp hw
    have htr : translate g = translate f := by
      rw [hgtrans, translate_eq_camel f hf hne]
    have hgf : g = f := translate_inj g hgmem f hf htr
    subst hgf
    exact hgget

theorem C3_name_translation_witness :
    dictGet (buildChangeset pDemo RStale) "username" = some (Value.str "x") ∧
    pDemo.get "email_verified" = some (Value.bool true) :=
  ⟨(C3_name_translation pDemo RStale).1 (Value.str "x") rfl,
   (C3_name_translation pDemo RStale).2 "email_verified" (by decide) (by decide)
     (Value.bool true) rfl⟩

/-! ## Claim C1 -/

/-- C1 (changeset minimality, as stated): a field would appear in the
changeset iff it was supplied and its value differs from (or is absent
under) the *translated* field name in the fetched resource.  This fails:
the `name` parameter is recorded unconditionally (line 419-420), even when
the stored `username` already equals the supplied value. -/
theorem C1_changeset_minimality_counterexample :
    ¬ (∀ (p : Params) (R : Dict), ∀ f ∈ userParamNames,
        ((dictGet (buildChangeset p R) (translate f)).isSome = true ↔
          ∃ v, p.get f = some v ∧ pyNe v (dictGet R (translate f)) = true)) := by
  intro h
  obtain ⟨v, hv, hne⟩ := (h pDemo RDemo "name" (by decide)).mp (by rfl)
  have hx : pDemo.get "name" = some (Value.str "x") := rfl
  rw [hx] at hv
  injection hv with hv
  rw [← hv] at hne
  have hfalse : pyNe (Value.str "x") (dictGet RDemo (translate "name")) = false := rfl
  rw [hfalse] at hne
  exact Bool.false_ne_true hne

/-- C1 (changeset minimality, amended): a field `f` appears in the
changeset (under its translated name) iff `f` was explicitly supplied and
either `f` is the `name` parameter (recorded unconditionally), or the
fetched resource's value under `f`'s *untranslated* snake_case name — the
key the code actually consults on line 418 — is absent or differs. -/
theorem C1_changeset_minimality_amended (p : Params) (R : Dict) :
    ∀ f ∈ userParamNames,
      ((dictGet (buildChangeset p R) (translate f)).isSome = true ↔
        ∃ v, p.get f = some v ∧ (f = "name" ∨ pyNe v (dictGet R f) = true)) := by
  intro f hf
  constructor
  · intro h
    obtain ⟨v, hv⟩ := Option.isSome_iff_exists.mp h
    obtain ⟨g, hgmem, hgget, hgtrans, hgcond⟩ :=
      (dictGet_changeset p R (translate f) v).mp hv
    have hgf : g = f := translate_inj g hgmem f hf hgtrans
    subst hgf
    refine ⟨v, hgget, ?_⟩
    rcases hgcond with h1 | ⟨_, h3⟩
    · exact Or.inl h1
    · exact Or.inr h3
  · rintro ⟨v, hv, hcond⟩
    have hsome : dictGet (buildChangeset p R) (translate f) = some v := by
      apply (dictGet_changeset p R (translate f) v).mpr
      by_cases h1 : f = "name"
      · exact ⟨f, hf, hv, rfl, Or.inl h1⟩
      · rcases hcond with h1' | h3
        · exact absurd h1' h1
        · exact ⟨f, hf, hv, rfl, Or.inr ⟨h1, h3⟩⟩
    rw [hsome]
    rfl

theorem C1_changeset_minimality_amended_witness :
    (dictGet (buildChangeset pDemo RStale) (translate "email_verified")).isSome = true :=
  (C1_changeset_minimality_amended pDemo RStale "email_verified" (by decide)).mpr
    ⟨Value.bool true, rfl, Or.inr rfl⟩

/-! ## Claim C5 -/

/-- C5 (omission preservation, as stated): "fields absent from `D` never
appear in the body sent to update".  This fails: the update body is the
whole fetched resource with the changeset overlaid, so the never-supplied
`email` field of the stored user appears in the body (with its stored
value). -/
theorem C5_omission_counterexample :
    pDemo.email = none ∧
    (runModule storeGw (some RStale) pDemo).2.2 =
      [GCall.getByName (some (Value.str "x")), GCall.updateUser desiredStale,
       GCall.getById (Value.str "1")] ∧
    dictGet desiredStale "email" = some (Value.str "e") :=
  ⟨rfl, rfl, rfl⟩

/-- C5 (omission preservation, amended): a field absent from the desired
spec never appears in the *changeset*, and the update body carries the
fetched remote value unchanged under the field's translated name (in
particular, a field absent from both spec and resource stays absent), so
the remote value for it is unchanged by the update. -/
theorem C5_omission_amended (p : Params) (R : Dict) :
    ∀ f ∈ userParamNames, p.get f = none →
      dictGet (buildChangeset p R) (translate f) = none ∧
      dictGet (dictUpdate R (buildChangeset p R)) (translate f) =
        dictGet R (translate f) := by
  intro f hf hnone
  have hcs : dictGet (buildChangeset p R) (translate f) = none := by
    cases hw : dictGet (buildChangeset p R) (translate f) with
    | none => rfl
    | some w =>
      exfalso
      obtain ⟨g, hgmem, hgget, hgtrans, _⟩ :=
        (dictGet_changeset p R (translate f) w).mp hw
      have hgf : g = f := translate_inj g hgmem f hf hgtrans
      subst hgf
      rw [hnone] at hgget
      exact Option.noConfusion hgget
  refine ⟨hcs, ?_⟩
  rw [dictGet_dictUpdate_changeset, hcs]

theorem C5_omission_amended_witness :
    dictGet (buildChangeset pDemo RStale) (translate "email") = none ∧
    dictGet (dictUpdate RStale (buildChangeset pDemo RStale)) (translate "email") =
      dictGet RStale (translate "email") :=
  C5_omission_amended pDemo RStale "email" (by decide) rfl

theorem runModule_missing_empty {σ : Type} (gw : Gateway σ) (s0 : σ) (p : Params)
    (hfetch : fetchBefore gw s0 p = some []) :
    runModule gw s0 p =
      runMissing gw s0 (normalizeParams p)
        (dictUpdate [] (buildChangeset (normalizeParams p) [])) (fetchCall p) := by
  simp only [runModule]
  rw [fetchBefore_normalizeParams, hfetch, fetchCall_normalizeParams]
  rfl

/-! ## Claim C7 -/

/-- C7 (dry-run safety): in check mode no mutating gateway call is ever
made — the gateway trace is exactly the single read-only lookup, so the
changeset and diff are computed against true current remote state. -/
theorem C7_dry_run_safety {σ : Type} (gw : Gateway σ) (s0 : σ) (p : Params)
    (hck : p.checkMode = true) :
    (runModule gw s0 p).2.2 = [fetchCall p] ∧
    noMutations (runModule gw s0 p).2.2 = true := by
  have hck' : (normalizeParams p).checkMode = true := by
    rw [normalizeParams_checkMode]; exact hck
  have htrace : (runModule gw s0 p).2.2 = [fetchCall p] := by
    cases hfetch : fetchBefore gw s0 p with
    | none =>
      rw [runModule_missing gw s0 p hfetch]
      exact runMissing_checkMode_trace _ _ _ _ _ hck'
    | some R =>
      cases R with
      | nil =>
        rw [runModule_missing_empty gw s0 p hfetch]
        exact runMissing_checkMode_trace _ _ _ _ _ hck'
      | cons e es =>
        rw [runModule_present gw s0 p (e :: es) hfetch (List.cons_ne_nil e es)]
        exact runPresent_checkMode_trace _ _ _ _ _ _ hck'
  refine ⟨htrace, ?_⟩
  rw [htrace]
  unfold noMutations fetchCall
  cases p.id <;> rfl

theorem C7_dry_run_safety_witness :
    (runModule storeGw (some RDemo) pDemoCheck).2.2 = [fetchCall pDemoCheck] ∧
    noMutations (runModule storeGw (some RDemo) pDemoCheck).2.2 = true :=
  C7_dry_run_safety storeGw (some RDemo) pDemoCheck rfl

/-! ## Claim C8 -/

/-- C8 (create validation): when the resource is missing and
`state=present`, a null `name` makes the invocation fail before any
mutating gateway call; a supplied `name` (outside check mode) proceeds to
the create call. -/
theorem C8_create_validation {σ : Type} (gw : Gateway σ) (s0 : σ) (p : Params)
    (hfetch : fetchBefore gw s0 p = none) (hst : p.state = "present") :
    (p.name = none →
      (runModule gw s0 p).1 = Outcome.failed Msg.nameRequired ∧
      noMutations (runModule gw s0 p).2.2 = true) ∧
    (∀ v, p.name = some v → p.checkMode = false →
      GCall.createUser (dictUpdate [] (buildChangeset (normalizeParams p) [])) ∈
        (runModule gw s0 p).2.2) := by
  have hst' : (normalizeParams p).state ≠ "absent" := by
    rw [normalizeParams_state, hst]
    decide
  constructor
  · intro hname
    have hname' : (normalizeParams p).name = none := by
      rw [normalizeParams_name]; exact hname
    rw [runModule_missing gw s0 p hfetch,
        runMissing_noName gw s0 (normalizeParams p) _ _ hst' hname']
    refine ⟨rfl, ?_⟩
    unfold noMutations fetchCall
    cases p.id <;> rfl
  · intro v hname hck
    have hname' : (normalizeParams p).name = some v := by
      rw [normalizeParams_name]; exact hname
    have hck' : (normalizeParams p).checkMode = false := by
      rw [normalizeParams_checkMode]; exact hck
    rw [runModule_missing gw s0 p hfetch,
        runMissing_create_calls gw s0 (normalizeParams p) _ _ v hst' hname' hck']
    simp

theorem C8_create_validation_witness :
    ((runModule storeGw (none : Option Dict) pNoName).1 =
        Outcome.failed Msg.nameRequired ∧
      noMutations (runModule storeGw (none : Option Dict) pNoName).2.2 = true) ∧
    GCall.createUser (dictUpdate [] (buildChangeset (normalizeParams pDemo) [])) ∈
      (runModule storeGw (none : Option Dict) pDemo).2.2 :=
  ⟨(C8_create_validation storeGw none pNoName rfl rfl).1 rfl,
   (C8_create_validation storeGw none pDemo rfl rfl).2 (Value.str "x") rfl rfl⟩

/-! ## Claim C10 -/

/-- C10 (check-mode creation reports no change): in check mode a missing
resource with `state=present` and a supplied name exits with the initial
`changed=False` and no `end_state` key, while the check-mode update and
delete paths exit with `changed=True` (and likewise no `end_state`). -/
theorem C10_check_mode_create :
    (∀ (σ : Type) (gw : Gateway σ) (s0 : σ) (p : Params) (v : Value),
      fetchBefore gw s0 p = none → p.state = "present" → p.name = some v →
      p.checkMode = true →
      runModule gw s0 p =
        (.exited { changed := false, msg := .empty,
                   diff := if p.diffMode then
                       some (Value.str "",
                         Value.dict (dictUpdate [] (buildChangeset (normalizeParams p) [])))
                     else none,
                   end_state := none, user := none }, s0, [fetchCall p])) ∧
    (∀ (σ : Type) (gw : Gateway σ) (s0 : σ) (p : Params) (R : Dict),
      fetchBefore gw s0 p = some R → R ≠ [] → p.state = "present" →
      p.checkMode = true →
      dictEqv (dictUpdate R (buildChangeset (normalizeParams p) R)) R = false →
      runModule gw s0 p =
        (.exited { changed := true, msg := .empty,
                   diff := if p.diffMode then
                       some (Value.dict R,
                         Value.dict (dictUpdate R (buildChangeset (normalizeParams p) R)))
                     else none,
                   end_state := none, user := none }, s0, [fetchCall p])) ∧
    (∀ (σ : Type) (gw : Gateway σ) (s0 : σ) (p : Params) (R : Dict),
      fetchBefore gw s0 p = some R → R ≠ [] → p.state = "absent" →
      p.checkMode = true →
      runModule gw s0 p =
        (.exited { changed := true, msg := .empty,
                   diff := if p.diffMode then some (Value.dict R, Value.str "") else none,
                   end_state := none, user := none }, s0, [fetchCall p])) := by
  refine ⟨?_, ?_, ?_⟩
  · intro σ gw s0 p v hfetch hst hname hck
    rw [runModule_missing gw s0 p hfetch,
        runMissing_checkMode_create gw s0 (normalizeParams p) _ _ v
          (by rw [normalizeParams_state, hst]; decide)
          (by rw [normalizeParams_name]; exact hname)
          (by rw [normalizeParams_checkMode]; exact hck),
        normalizeParams_diffMode]
  · intro σ gw s0 p R hfetch hne hst hck heq
    rw [runModule_present gw s0 p R hfetch hne,
        runPresent_update_checkMode gw s0 (normalizeParams p) R _ _
          (by rw [normalizeParams_state]; exact hst) heq
          (by rw [normalizeParams_checkMode]; exact hck),
        normalizeParams_diffMode]
  · intro σ gw s0 p R hfetch hne hst hck
    rw [runModule_present gw s0 p R hfetch hne,
        runPresent_delete_checkMode gw s0 (normalizeParams p) R _ _
          (by rw [normalizeParams_state, hst]; decide)
          (by rw [normalizeParams_checkMode]; exact hck),
        normalizeParams_diffMode]

theorem C10_check_mode_create_witness :
    (runModule storeGw (none : Option Dict) pDemoCheck =
      (.exited { changed := false, msg := .empty, diff := none,
                 end_state := none, user := none }, none, [fetchCall pDemoCheck])) ∧
    (runModule storeGw (some RStale) pDemoCheck =
      (.exited { changed := true, msg := .empty, diff := none,
                 end_state := none, user := none }, some RStale, [fetchCall pDemoCheck])) ∧
    (runModule storeGw (some RStale) pAbsentCheck =
      (.exited { changed := true, msg := .empty, diff := none,
                 end_state := none, user := none }, some RStale, [fetchCall pAbsentCheck])) :=
  ⟨C10_check_mode_create.1 (Option Dict) storeGw none pDemoCheck (Value.str "x")
      rfl rfl rfl rfl,
   C10_check_mode_create.2.1 (Option Dict) storeGw (some RStale) pDemoCheck RStale
      rfl (List.cons_ne_nil _ _) rfl rfl rfl,
   C10_check_mode_create.2.2 (Option Dict) storeGw (some RStale) pAbsentCheck RStale
      rfl (List.cons_ne_nil _ _) rfl rfl⟩

/-! ## Claim C4 -/

/-- C4 (update body frame): on the update path the body sent to the
gateway is exactly the fetched resource with the changeset overlaid, so
every key not touched by the changeset (server-assigned fields included)
keeps its fetched value in the sent body. -/
theorem C4_update_frame {σ : Type} (gw : Gateway σ) (s0 : σ) (p : Params) (R : Dict)
    (hfetch : fetchBefore gw s0 p = some R) (hne : R ≠ [])
    (hst : p.state = "present") (hck : p.checkMode = false)
    (heq : dictEqv (dictUpdate R (buildChangeset (normalizeParams p) R)) R = false) :
    GCall.updateUser (dictUpdate R (buildChangeset (normalizeParams p) R)) ∈
      (runModule gw s0 p).2.2 ∧
    ∀ k, dictGet (buildChangeset (normalizeParams p) R) k = none →
      dictGet (dictUpdate R (buildChangeset (normalizeParams p) R)) k = dictGet R k := by
  constructor
  · rw [runModule_present gw s0 p R hfetch hne]
    exact runPresent_update_calls gw s0 (normalizeParams p) R _ _
      (by rw [normalizeParams_state]; exact hst) heq
      (by rw [normalizeParams_checkMode]; exact hck)
  · intro k hk
    rw [dictGet_dictUpdate_changeset, hk]

theorem C4_update_frame_witness :
    GCall.updateUser (dictUpdate RStale (buildChangeset (normalizeParams pDemo) RStale)) ∈
      (runModule storeGw (some RStale) pDemo).2.2 ∧
    dictGet (dictUpdate RStale (buildChangeset (normalizeParams pDemo) RStale)) "email" =
      dictGet RStale "email" :=
  ⟨(C4_update_frame storeGw (some RStale) pDemo RStale rfl (List.cons_ne_nil _ _)
      rfl rfl rfl).1,
   (C4_update_frame storeGw (some RStale) pDemo RStale rfl (List.cons_ne_nil _ _)
      rfl rfl rfl).2 "email" rfl⟩

/-! ## Claim C6 -/

/-- C6 (no-op scenario, as stated): with the resource present and enabled
and the caller supplying only `enabled=true`, the module is claimed to
report `changed=false` with no mutating call.  This fails: the
`email_verified` parameter defaults to `true` and its old value is looked
up under the snake_case key, so a stored user whose `emailVerified` is
`false` is updated (and even a matching one would be, were the flag
stored differently). -/
theorem C6_noop_counterexample :
    pDemo.enabled = some (Value.bool true) ∧
    pDemo.attributes = none ∧ pDemo.email = none ∧ pDemo.first_name = none ∧
    pDemo.last_name = none ∧ pDemo.required_actions = none ∧
    pDemo.credentials = none ∧
    dictGet RC6 "enabled" = some (Value.bool true) ∧
    (runModule storeGw (some RC6) pDemo).1 =
      Outcome.exited { changed := true, msg := Msg.updated (Value.str "1"),
                       diff := none, end_state := some desiredC6,
                       user := some desiredC6 } ∧
    GCall.updateUser desiredC6 ∈ (runModule storeGw (some RC6) pDemo).2.2 :=
  ⟨rfl, rfl, rfl, rfl, rfl, rfl, rfl, rfl, rfl,
   List.Mem.tail _ (List.Mem.head _)⟩

/-- C6 (no-op scenario, amended): with the resource present and enabled,
the caller supplying only `enabled=true` (plus the forced
`email_verified=true` default and a lookup key), the module reports
`changed=false` and makes no mutating call — provided additionally that
the stored resource's `emailVerified` is `true` and that its
`username`/`id` match the supplied lookup key. -/
theorem C6_noop_amended {σ : Type} (gw : Gateway σ) (s0 : σ) (p : Params) (R : Dict)
    (hst : p.state = "present")
    (hen : p.enabled = some (Value.bool true))
    (hev : p.email_verified = some (Value.bool true))
    (hattr : p.attributes = none) (hemail : p.email = none)
    (hfn : p.first_name = none) (hln : p.last_name = none)
    (hra : p.required_actions = none) (hcred : p.credentials = none)
    (hfetch : fetchBefore gw s0 p = some R) (hne : R ≠ [])
    (hnodup : (keysOf R).Nodup)
    (hRen : dictGet R "enabled" = some (Value.bool true))
    (hRev : dictGet R "emailVerified" = some (Value.bool true))
    (hname : ∀ v, p.name = some v → dictGet R "username" = some v)
    (hid : ∀ u, p.id = some u → dictGet R "id" = some u)
    (husr : (dictGet R "username").isSome = true) :
    ∃ nm, dictGet R "username" = some nm ∧
      runModule gw s0 p =
        (.exited { changed := false, msg := .noChanges nm, diff := none,
                   end_state := some R, user := some R }, s0, [fetchCall p]) := by
  have hp : normalizeParams p = p := normalizeParams_of_attributes_none p hattr
  have hdes : dictUpdate R (buildChangeset p R) = R := by
    apply dictUpdate_self R _ hnodup
    rintro ⟨k, v⟩ he
    obtain ⟨f, hf, hg, hk, hcond⟩ := (mem_changeset p R k v).mp he
    simp only [userParamNames, List.mem_cons, List.not_mem_nil, or_false] at hf
    rcases hf with rfl | rfl | rfl | rfl | rfl | rfl | rfl | rfl | rfl | rfl
    · -- id
      exfalso
      have hg' : p.id = some v := hg
      rcases hcond with h1 | ⟨_, h3⟩
      · exact absurd h1 (by decide)
      · rw [hid v hg'] at h3
        simp [pyNe, Value.eqv_refl] at h3
    · -- name
      have hk' : k = "username" := by
        have : translate "name" = "username" := rfl
        rw [this] at hk
        exact hk.symm
      subst hk'
      exact hname v hg
    · -- attributes
      exfalso
      have hg' : p.attributes = some v := hg
      rw [hattr] at hg'
      exact Option.noConfusion hg'
    · -- email
      exfalso
      have hg' : p.email = some v := hg
      rw [hemail] at hg'
      exact Option.noConfusion hg'
    · -- enabled
      exfalso
      have hg' : p.enabled = some v := hg
      rw [hen] at hg'
      injection hg' with hg'
      rcases hcond with h1 | ⟨_, h3⟩
      · exact absurd h1 (by decide)
      · rw [hRen, ← hg'] at h3
        simp [pyNe, Value.eqv_refl] at h3
    · -- first_name
      exfalso
      have hg' : p.first_name = some v := hg
      rw [hfn] at hg'
      exact Option.noConfusion hg'
    · -- last_name
      exfalso
      have hg' : p.last_name = some v := hg
      rw [hln] at hg'
      exact Option.noConfusion hg'
    · -- required_actions
      exfalso
      have hg' : p.required_actions = some v := hg
      rw [hra] at hg'
      exact Option.noConfusion hg'
    · -- credentials
      exfalso
      have hg' : p.credentials = some v := hg
      rw [hcred] at hg'
      exact Option.noConfusion hg'
    · -- email_verified
      have hg' : p.email_verified = some v := hg
      rw [hev] at hg'
      injection hg' with hg'
      have hk' : k = "emailVerified" := by
        have : translate "email_verified" = "emailVerified" := rfl
        rw [this] at hk
        exact hk.symm
      subst hk'
      rw [← hg']
      exact hRev
  obtain ⟨nm, hnm⟩ := Option.isSome_iff_exists.mp husr
  refine ⟨nm, hnm, ?_⟩
  rw [runModule_present gw s0 p R hfetch hne, hp, hdes]
  exact runPresent_noChange gw s0 p R R (fetchCall p) nm hst
    (dictEqv_refl R hnodup) hnm

theorem C6_noop_amended_witness :
    ∃ nm, dictGet RDemo "username" = some nm ∧
      runModule storeGw (some RDemo) pDemo =
        (.exited { changed := false, msg := .noChanges nm, diff := none,
                   end_state := some RDemo, user := some RDemo },
         some RDemo, [fetchCall pDemo]) :=
  C6_noop_amended storeGw (some RDemo) pDemo RDemo rfl rfl rfl rfl rfl rfl rfl
    rfl rfl rfl (List.cons_ne_nil _ _) (by decide) rfl rfl
    (fun v hv => by rw [show v = Value.str "x" from (by injection hv with h; exact h.symm)]; rfl)
    (fun u hu => Option.noConfusion hu) rfl

/-! ## Claim C2 -/

/-- C2 (idempotence, as stated): running the reconciliation twice against
the storing gateway is claimed to yield `changed=true` on the first run
for *every* desired spec.  This fails when the stored resource already
matches the desired state: the first run reports `changed=false`. -/
theorem C2_idempotence_counterexample :
    ¬ (∀ (p : Params) (R : Dict), p.state = "present" → p.checkMode = false →
        (keysOf R).Nodup → R ≠ [] → (dictGet R "id").isSome = true →
        (dictGet R "username").isSome = true →
        ∃ r1 : ModuleResult, (runModule storeGw (some R) p).1 = .exited r1 ∧
          r1.changed = true) := by
  intro h
  obtain ⟨r1, hr1, hch⟩ :=
    h pDemo RDemo rfl rfl (by decide) (List.cons_ne_nil _ _) rfl rfl
  have hrun : (runModule storeGw (some RDemo) pDemo).1 =
      Outcome.exited { changed := false, msg := Msg.noChanges (Value.str "x"),
                       diff := none, end_state := some RDemo,
                       user := some RDemo } := rfl
  rw [hrun] at hr1
  injection hr1 with hr1
  rw [← hr1] at hch
  exact Bool.false_ne_true hch

/-- C2 (idempotence, amended): against a gateway whose `update` stores the
sent body and whose lookups return the stored resource, running the same
spec twice gives: `changed` on the first run exactly when the merged
desired dict differs from the stored resource, always `changed=false` on
the second run, and the same `end_state` on both runs. -/
theorem C2_idempotence_amended (p : Params) (R : Dict)
    (hst : p.state = "present") (hck : p.checkMode = false)
    (hnodup : (keysOf R).Nodup) (hne : R ≠ [])
    (hid : (dictGet R "id").isSome = true)
    (husr : (dictGet R "username").isSome = true) :
    ∃ r1 r2 : ModuleResult,
      (runModule storeGw (some R) p).1 = .exited r1 ∧
      (runModule storeGw (runModule storeGw (some R) p).2.1 p).1 = .exited r2 ∧
      r2.changed = false ∧
      r1.end_state = r2.end_state ∧
      r1.changed =
        !(dictEqv (dictUpdate R (buildChangeset (normalizeParams p) R)) R) := by
  have hst' : (normalizeParams p).state = "present" := by
    rw [normalizeParams_state]; exact hst
  have hck' : (normalizeParams p).checkMode = false := by
    rw [normalizeParams_checkMode]; exact hck
  have hfetch1 : fetchBefore storeGw (some R) p = some R := by
    unfold fetchBefore storeGw
    cases p.id <;> rfl
  set q := normalizeParams p with hq
  set D := dictUpdate R (buildChangeset q R) with hD
  have hrun1 : runModule storeGw (some R) p =
      runPresent storeGw (some R) q R D (fetchCall p) :=
    runModule_present storeGw (some R) p R hfetch1 hne
  cases heq : dictEqv D R with
  | true =>
    obtain ⟨nm, hnm⟩ := Option.isSome_iff_exists.mp husr
    have hbranch := runPresent_noChange storeGw (some R) q R D (fetchCall p) nm
      hst' heq hnm
    have hres1 : runModule storeGw (some R) p =
        (.exited { changed := false, msg := .noChanges nm, diff := none,
                   end_state := some D, user := some D }, some R, [fetchCall p]) := by
      rw [hrun1, hbranch]
    have hs1 : (runModule storeGw (some R) p).2.1 = some R := by rw [hres1]
    refine ⟨{ changed := false, msg := .noChanges nm, diff := none,
              end_state := some D, user := some D },
            { changed := false, msg := .noChanges nm, diff := none,
              end_state := some D, user := some D }, ?_, ?_, rfl, rfl, rfl⟩
    · rw [hres1]
    · rw [hs1, hres1]
  | false =>
    -- the first run performs the update and stores D
    have hidD : (dictGet D "id").isSome = true := by
      rw [hD, dictGet_dictUpdate_changeset]
      cases hcs : dictGet (buildChangeset q R) "id" with
      | some w => rfl
      | none => exact hid
    obtain ⟨u, hu⟩ := Option.isSome_iff_exists.mp hidD
    have hres1 : runModule storeGw (some R) p =
        (.exited { changed := true, msg := .updated u,
                   diff := if q.diffMode then some (Value.dict R, Value.dict D) else none,
                   end_state := some D, user := some D },
         some D, [fetchCall p, GCall.updateUser D, GCall.getById u]) := by
      rw [hrun1]
      exact runPresent_update_full storeGw (some R) q R D D (fetchCall p) u u
        hst' heq hck' hu rfl hu
    -- the second run fetches the stored D and finds no difference
    have hfetch2 : fetchBefore storeGw (some D) p = some D := by
      unfold fetchBefore storeGw
      cases p.id <;> rfl
    have hneD : D ≠ [] := hD ▸ dictUpdate_ne_nil R _ hne
    have hstable : dictUpdate D (buildChangeset q D) = D := by
      rw [hD]
      exact changeset_stable q R hnodup
    have hnodupD : (keysOf D).Nodup := hD ▸ nodup_keysOf_dictUpdate R _ hnodup
    have husrD : (dictGet D "username").isSome = true := by
      rw [hD, dictGet_dictUpdate_changeset]
      cases hcs : dictGet (buildChangeset q R) "username" with
      | some w => rfl
      | none => exact husr
    obtain ⟨nm2, hnm2⟩ := Option.isSome_iff_exists.mp husrD
    have hrun2 : runModule storeGw (some D) p =
        runPresent storeGw (some D) q D (dictUpdate D (buildChangeset q D))
          (fetchCall p) :=
      runModule_present storeGw (some D) p D hfetch2 hneD
    have hres2 : runModule storeGw (some D) p =
        (.exited { changed := false, msg := .noChanges nm2, diff := none,
                   end_state := some D, user := some D }, some D, [fetchCall p]) := by
      rw [hrun2, hstable]
      exact runPresent_noChange storeGw (some D) q D D (fetchCall p) nm2 hst'
        (dictEqv_refl D hnodupD) hnm2
    have hs1 : (runModule storeGw (some R) p).2.1 = some D := by rw [hres1]
    refine ⟨{ changed := true, msg := .updated u,
              diff := if q.diffMode then some (Value.dict R, Value.dict D) else none,
              end_state := some D, user := some D },
            { changed := false, msg := .noChanges nm2, diff := none,
              end_state := some D, user := some D }, ?_, ?_, rfl, rfl, rfl⟩
    · rw [hres1]
    · rw [hs1, hres2]

theorem C2_idempotence_amended_witness :
    ∃ r1 r2 : ModuleResult,
      (runModule storeGw (some RStale) pDemo).1 = .exited r1 ∧
      (runModule storeGw (runModule storeGw (some RStale) pDemo).2.1 pDemo).1 =
        .exited r2 ∧
      r2.changed = false ∧
      r1.end_state = r2.end_state ∧
      r1.changed =
        !(dictEqv (dictUpdate RStale (buildChangeset (normalizeParams pDemo) RStale))
          RStale) :=
  C2_idempotence_amended pDemo RStale rfl rfl (by decide)
    (List.cons_ne_nil _ _) rfl rfl

end KeycloakUser
